import Mathlib

/-!
Verification of the progress core of the audio-analyzer frontend
(`src/frontend/src/components/AnalysisResult.jsx`): size normalization
(`normalizeBytes`), duration estimation (`estimateMsFromBytes`), ETA
formatting (`formatEta`) and the frame-driven progress scheduler
(the `tick` closure of the `Loader` effect).

JavaScript numbers are modelled as exact rationals wherever the code only
performs field operations and comparisons, and as real numbers where the
estimator takes non-integral powers (`Math.pow(mb, 1.35)` etc.).  A `none`
input models a non-finite or absent size (`Number.isFinite` false).
-/

/-- The `clamp` helper: `Math.min(max, Math.max(min, n))`. -/
def jsClamp {α : Type} [LinearOrder α] (n lo hi : α) : α := min hi (max lo n)

/-- `normalizeBytes(size)`: soft-fails on non-finite (`none`) or nonpositive
input; reinterprets sizes in `[1000, 50_000_000)` that are exact multiples
of 1024 (`size % 1024 === 0`, here: `(s / 1024).den = 1`) or exceed 10000 as
kilobytes, multiplying by 1024; returns everything else unchanged. -/
def normalizeBytes (size : Option ℚ) : Option ℚ :=
  match size with
  | none => none
  | some s =>
    if s ≤ 0 then none
    else if s < 50000000 ∧ 1000 ≤ s then
      if (s / 1024).den = 1 ∨ s > 10000 then some (s * 1024) else some s
    else some s

/-- Body of `estimateMsFromBytes` after the `!bytes` early return: piecewise
seconds model over `mb = bytes / (1024*1024)`, baseline 1200 ms, clamped to
`[minMs, 6h]` with `minMs = 300` iff `mb < 0.3`, else `5000`. -/
noncomputable def estimateMsCore (bytes : ℚ) : ℝ :=
  let mb : ℚ := bytes / (1024 * 1024)
  let baseMs : ℝ := 1200
  let seconds : ℝ :=
    if mb ≤ 1 then 1 + 3 * (mb : ℝ)
    else if mb ≤ 30 then 5.2 * (mb : ℝ) ^ (1.35 : ℝ)
    else 1.9 * (mb : ℝ) ^ (1.55 : ℝ)
  let ms : ℝ := seconds * 1000 + baseMs
  let minMs : ℝ := if mb < 0.3 then 300 else 5000
  jsClamp ms minMs (6 * 60 * 60 * 1000)

/-- `estimateMsFromBytes(rawSize)`: normalizes, falls back to 2500 ms when
normalization yields `null`, otherwise runs the piecewise model. -/
noncomputable def estimateMsFromBytes (rawSize : Option ℚ) : ℝ :=
  match normalizeBytes rawSize with
  | none => 2500
  | some bytes => estimateMsCore bytes

/-- `formatEta(ms)`: `s = Math.max(1, Math.round(ms / 1000))`, then seconds,
minutes or hours label. -/
noncomputable def formatEta (ms : ℝ) : String :=
  if max 1 (round (ms / 1000)) < 60 then
    "~" ++ toString (max 1 (round (ms / 1000))) ++ "s"
  else if round (((max 1 (round (ms / 1000)) : ℤ) : ℝ) / 60) < 60 then
    "~" ++ toString (round (((max 1 (round (ms / 1000)) : ℤ) : ℝ) / 60)) ++ "m"
  else
    "~" ++ toString
      (round (((round (((max 1 (round (ms / 1000)) : ℤ) : ℝ) / 60) : ℤ) : ℝ)
        / 60)) ++ "h"

/-- The spec's literal formatting rule, stated in its own words: `s =
max(1, round(ms/1000))`; `"~{s}s"` if `s < 60`, else `m = round(s/60)` and
`"~{m}m"` if `m < 60`, else `"~{h}h"` with `h = round(m/60)`. -/
noncomputable def formatEtaRule (ms : ℝ) : String :=
  let s : ℤ := max 1 (round (ms / 1000))
  if s < 60 then "~" ++ toString s ++ "s"
  else
    let m : ℤ := round ((s : ℝ) / 60)
    if m < 60 then "~" ++ toString m ++ "m"
    else
      let h : ℤ := round ((m : ℝ) / 60)
      "~" ++ toString h ++ "h"

/-- The clamped time progress of a tick:
`t = clamp((now - startTime) / estMs, 0, 1)`. -/
def tickT (estMs startTime now : ℚ) : ℚ :=
  jsClamp ((now - startTime) / estMs) 0 1

/-- The two-phase easing of `tick`: cubic ease-out to 0.7 below `t = 0.6`,
then quadratic ease-out from 0.7 to 0.95. -/
def eased (t : ℚ) : ℚ :=
  if t < 0.6 then 0.7 * (1 - (1 - t / 0.6) ^ 3)
  else 0.7 + 0.25 * (1 - (1 - (t - 0.6) / 0.4) ^ 2)

/-- One `tick(now)` of the `Loader` effect, for a run with fixed `estMs` and
`startTime` and completion flag `done`: returns the progress value it leaves
published (the last `setProgress` argument of the tick) and whether it
scheduled a further animation frame (`requestAnimationFrame(tick)` runs only
in the `!done && t < 1` branch). -/
def tickResult (estMs startTime now : ℚ) (done : Bool) : ℚ × Bool :=
  if done = false ∧ tickT estMs startTime now < 1 then
    (eased (tickT estMs startTime now) * (if done then 1 else 0.95), true)
  else if done = false ∧ 1 ≤ tickT estMs startTime now then (0.95, false)
  else (1, false)

/-- The fraction a tick leaves published. -/
def tickFraction (estMs startTime now : ℚ) (done : Bool) : ℚ :=
  (tickResult estMs startTime now done).1

/-- Whether a tick schedules a further animation frame. -/
def tickReschedules (estMs startTime now : ℚ) (done : Bool) : Bool :=
  (tickResult estMs startTime now done).2

/-- State of the `Loader` effect lifecycle: the run variables held by the
component (`startRef`, the memoized estimate, the `done` prop, the published
`progress`), the `rafRef` handle ref, the list of animation-frame callbacks
currently scheduled by the browser and not yet fired or cancelled, and the
browser's fresh-handle counter. -/
structure SchedState where
  startTime : ℚ
  estMs : ℚ
  done : Bool
  fraction : ℚ
  rafRef : Option ℕ
  scheduled : List ℕ
  nextId : ℕ

/-- The effect cleanup: `if (rafRef.current) cancelAnimationFrame(...)`.
Cancelling an absent or already-fired handle is a no-op. -/
def cancelPending (s : SchedState) : SchedState :=
  match s.rafRef with
  | none => s
  | some id => { s with scheduled := s.scheduled.erase id }

/-- The body of the `Loader` effect on a (re)start at clock `now`: record
the new start time, publish fraction 0 and request the first frame. -/
def effectBody (estMs : ℚ) (done : Bool) (now : ℚ) (s : SchedState) :
    SchedState :=
  { startTime := now, estMs := estMs, done := done, fraction := 0,
    rafRef := some s.nextId, scheduled := s.scheduled ++ [s.nextId],
    nextId := s.nextId + 1 }

/-- The browser firing animation frame `id` at clock `now`: a cancelled or
stale handle does nothing; a scheduled handle is consumed, the tick runs,
and a follow-up frame is requested exactly when the tick asks for one. -/
def fireFrame (id : ℕ) (now : ℚ) (s : SchedState) : SchedState :=
  if id ∈ s.scheduled then
    if tickReschedules s.estMs s.startTime now s.done then
      { s with fraction := tickFraction s.estMs s.startTime now s.done,
               scheduled := s.scheduled.erase id ++ [s.nextId],
               rafRef := some s.nextId,
               nextId := s.nextId + 1 }
    else
      { s with fraction := tickFraction s.estMs s.startTime now s.done,
               scheduled := s.scheduled.erase id }
  else s

/-- Events of the lifecycle: an effect re-run (new estimate, completion flip
or remount; React runs the cleanup first, then the body) or the browser
firing a frame handle. -/
inductive SchedEvent where
  | restart (estMs : ℚ) (done : Bool) (now : ℚ)
  | fire (id : ℕ) (now : ℚ)

/-- One lifecycle step. -/
def schedStep (s : SchedState) : SchedEvent → SchedState
  | SchedEvent.restart estMs done now =>
      effectBody estMs done now (cancelPending s)
  | SchedEvent.fire id now => fireFrame id now s

/-- The mounted component before its first effect run. -/
def schedInit : SchedState :=
  { startTime := 0, estMs := 0, done := false, fraction := 0,
    rafRef := none, scheduled := [], nextId := 0 }

/-- The lifecycle state after a sequence of events from the initial state. -/
def schedRun (evs : List SchedEvent) : SchedState :=
  evs.foldl schedStep schedInit

/-- Lifecycle invariant: at most one scheduled frame at a time, the raf ref
names every scheduled frame, and all handles are allocated fresh. -/
def SchedInv (s : SchedState) : Prop :=
  s.scheduled.length ≤ 1
  ∧ (∀ id ∈ s.scheduled, s.rafRef = some id)
  ∧ (∀ id ∈ s.scheduled, id < s.nextId)
  ∧ (∀ id : ℕ, s.rafRef = some id → id < s.nextId)

/-- Unfolding of `normalizeBytes` on a finite input. -/
lemma normalizeBytes_some (s : ℚ) :
    normalizeBytes (some s) =
      if s ≤ 0 then none
      else if s < 50000000 ∧ 1000 ≤ s then
        if (s / 1024).den = 1 ∨ s > 10000 then some (s * 1024) else some s
      else some s := rfl

/-- A rational has denominator 1 exactly when it is an integer. -/
lemma rat_den_one_iff (q : ℚ) : q.den = 1 ↔ ∃ k : ℤ, q = (k : ℚ) := by
  constructor
  · intro h
    refine ⟨q.num, ?_⟩
    rw [← Rat.num_div_den q, h]
    simp
  · rintro ⟨k, rfl⟩
    exact Rat.den_intCast k

/-- The `size % 1024 === 0` test, as implemented via `(s / 1024).den = 1`,
holds exactly when `s` is an integer multiple of 1024. -/
lemma div1024_den_one_iff (s : ℚ) :
    (s / 1024).den = 1 ↔ ∃ k : ℤ, s = 1024 * k := by
  rw [rat_den_one_iff]
  constructor
  · rintro ⟨k, hk⟩
    refine ⟨k, ?_⟩
    have h := (div_eq_iff (by norm_num : (1024 : ℚ) ≠ 0)).mp hk
    linarith
  · rintro ⟨k, rfl⟩
    exact ⟨k, by field_simp⟩

/-- C5: normalize(rawSize) returns null exactly when rawSize is not finite
(modelled by `none`) or nonpositive; a valid rawSize with
1000 ≤ rawSize < 50000000 that is an exact multiple of 1024 or exceeds
10000 is returned as rawSize * 1024; every other valid rawSize is returned
unchanged; in particular normalize(500) = 500 and
normalize(27000) = 27648000. -/
theorem normalizeBytes_spec :
    normalizeBytes none = none
    ∧ (∀ s : ℚ, normalizeBytes (some s) = none ↔ s ≤ 0)
    ∧ (∀ s : ℚ, 0 < s → 1000 ≤ s → s < 50000000 →
        ((∃ k : ℤ, s = 1024 * k) ∨ 10000 < s) →
        normalizeBytes (some s) = some (s * 1024))
    ∧ (∀ s : ℚ, 0 < s →
        ¬(1000 ≤ s ∧ s < 50000000 ∧ ((∃ k : ℤ, s = 1024 * k) ∨ 10000 < s)) →
        normalizeBytes (some s) = some s)
    ∧ normalizeBytes (some 500) = some 500
    ∧ normalizeBytes (some 27000) = some 27648000 := by
  refine ⟨rfl, ?_, ?_, ?_, by norm_num [normalizeBytes],
    by norm_num [normalizeBytes]⟩
  · intro s
    constructor
    · intro h
      by_contra hs
      push_neg at hs
      rw [normalizeBytes_some, if_neg (not_le.mpr hs)] at h
      split at h
      · split at h <;> exact Option.noConfusion h
      · exact Option.noConfusion h
    · intro hs
      rw [normalizeBytes_some, if_pos hs]
  · intro s hs h1000 h50 hkb
    have hcond : (s / 1024).den = 1 ∨ s > 10000 := by
      rcases hkb with hk | h10
      · exact Or.inl ((div1024_den_one_iff s).mpr hk)
      · exact Or.inr h10
    rw [normalizeBytes_some, if_neg (not_le.mpr hs), if_pos ⟨h50, h1000⟩,
      if_pos hcond]
  · intro s hs hnot
    rw [normalizeBytes_some, if_neg (not_le.mpr hs)]
    by_cases hr : s < 50000000 ∧ 1000 ≤ s
    · have hc : ¬((s / 1024).den = 1 ∨ s > 10000) := by
        intro hc
        exact hnot ⟨hr.2, hr.1,
          hc.imp (fun hd => (div1024_den_one_iff s).mp hd) (fun h => h)⟩
      rw [if_pos hr, if_neg hc]
    · rw [if_neg hr]

/-- Witness for C5 at the concrete multiple-of-1024 size 20480. -/
theorem normalizeBytes_spec_witness :
    normalizeBytes (some 20480) = some (20480 * 1024) :=
  normalizeBytes_spec.2.2.1 20480 (by norm_num) (by norm_num) (by norm_num)
    (Or.inl ⟨20, by norm_num⟩)

/-- C8: estimate(rawSize) is total and never fails: whenever normalization
yields null (non-finite, zero or negative size) it returns the fixed
default 2500 ms; in particular estimate(0) = 2500. -/
theorem estimate_default_on_invalid :
    (∀ raw : Option ℚ, normalizeBytes raw = none →
      estimateMsFromBytes raw = 2500)
    ∧ estimateMsFromBytes none = 2500
    ∧ estimateMsFromBytes (some 0) = 2500
    ∧ (∀ s : ℚ, s ≤ 0 → estimateMsFromBytes (some s) = 2500) := by
  have key : ∀ raw, normalizeBytes raw = none → estimateMsFromBytes raw = 2500 := by
    intro raw h
    unfold estimateMsFromBytes
    rw [h]
  refine ⟨key, key none rfl, key (some 0) (by norm_num [normalizeBytes]), ?_⟩
  intro s hs
  refine key (some s) ?_
  rw [normalizeBytes_some, if_pos hs]

/-- Witness for C8 at the concrete invalid size -5. -/
theorem estimate_default_on_invalid_witness :
    estimateMsFromBytes (some (-5)) = 2500 :=
  estimate_default_on_invalid.2.2.2 (-5) (by norm_num)

/-- The clamped tick progress is nonnegative. -/
lemma tickT_nonneg (estMs startTime now : ℚ) : 0 ≤ tickT estMs startTime now :=
  le_min (by norm_num) (le_max_left 0 _)

/-- The clamped tick progress is at most one. -/
lemma tickT_le_one (estMs startTime now : ℚ) : tickT estMs startTime now ≤ 1 :=
  min_le_left _ _

/-- For a positive estimate, tick progress is monotone in the clock. -/
lemma tickT_mono (estMs startTime : ℚ) {n₁ n₂ : ℚ} (hpos : 0 < estMs)
    (h : n₁ ≤ n₂) : tickT estMs startTime n₁ ≤ tickT estMs startTime n₂ := by
  unfold tickT jsClamp
  have hdiv : (n₁ - startTime) / estMs ≤ (n₂ - startTime) / estMs :=
    (div_le_div_right hpos).mpr (by linarith)
  exact min_le_min le_rfl (max_le_max le_rfl hdiv)

/-- The easing curve is nonnegative on the clamped range. -/
lemma eased_nonneg {t : ℚ} (h0 : 0 ≤ t) (h1 : t ≤ 1) : 0 ≤ eased t := by
  unfold eased
  by_cases h : t < 0.6
  · rw [if_pos h]
    have hc0 : (0 : ℚ) ≤ 1 - t / 0.6 := by
      have : t / 0.6 < 1 := by
        rw [div_lt_one (by norm_num : (0 : ℚ) < 0.6)]
        exact h
      linarith
    have hc1 : 1 - t / 0.6 ≤ 1 := by
      have : 0 ≤ t / 0.6 := div_nonneg h0 (by norm_num)
      linarith
    have hcube : (1 - t / 0.6) ^ 3 ≤ 1 := pow_le_one₀ hc0 hc1
    linarith
  · rw [if_neg h]
    push_neg at h
    have hd0 : (0 : ℚ) ≤ 1 - (t - 0.6) / 0.4 := by
      have : (t - 0.6) / 0.4 ≤ 1 := by
        rw [div_le_one (by norm_num : (0 : ℚ) < 0.4)]
        linarith
      linarith
    have hd1 : 1 - (t - 0.6) / 0.4 ≤ 1 := by
      have : 0 ≤ (t - 0.6) / 0.4 := div_nonneg (by linarith) (by norm_num)
      linarith
    have hsq : (1 - (t - 0.6) / 0.4) ^ 2 ≤ 1 := pow_le_one₀ hd0 hd1
    linarith

/-- The easing curve never exceeds the 0.95 stall ceiling. -/
lemma eased_le_ceiling {t : ℚ} (h0 : 0 ≤ t) (h1 : t ≤ 1) :
    eased t ≤ 0.95 := by
  unfold eased
  by_cases h : t < 0.6
  · rw [if_pos h]
    have hc0 : (0 : ℚ) ≤ 1 - t / 0.6 := by
      have : t / 0.6 < 1 := by
        rw [div_lt_one (by norm_num : (0 : ℚ) < 0.6)]
        exact h
      linarith
    have hcube : 0 ≤ (1 - t / 0.6) ^ 3 := pow_nonneg hc0 _
    nlinarith
  · rw [if_neg h]
    have hsq : 0 ≤ (1 - (t - 0.6) / 0.4) ^ 2 := sq_nonneg _
    nlinarith

/-- The easing curve is monotone on the clamped range. -/
lemma eased_mono {a b : ℚ} (h0 : 0 ≤ a) (hab : a ≤ b) (h1 : b ≤ 1) :
    eased a ≤ eased b := by
  unfold eased
  by_cases ha : a < 0.6
  · by_cases hb : b < 0.6
    · rw [if_pos ha, if_pos hb]
      have hb0 : (0 : ℚ) ≤ 1 - b / 0.6 := by
        have : b / 0.6 < 1 := by
          rw [div_lt_one (by norm_num : (0 : ℚ) < 0.6)]
          exact hb
        linarith
      have hba : 1 - b / 0.6 ≤ 1 - a / 0.6 := by
        have : a / 0.6 ≤ b / 0.6 :=
          (div_le_div_right (by norm_num : (0 : ℚ) < 0.6)).mpr hab
        linarith
      have hcube : (1 - b / 0.6) ^ 3 ≤ (1 - a / 0.6) ^ 3 :=
        pow_le_pow_left₀ hb0 hba 3
      nlinarith
    · rw [if_pos ha, if_neg hb]
      push_neg at hb
      have hc0 : (0 : ℚ) ≤ 1 - a / 0.6 := by
        have : a / 0.6 < 1 := by
          rw [div_lt_one (by norm_num : (0 : ℚ) < 0.6)]
          exact ha
        linarith
      have hcube : 0 ≤ (1 - a / 0.6) ^ 3 := pow_nonneg hc0 _
      have hd0 : (0 : ℚ) ≤ 1 - (b - 0.6) / 0.4 := by
        have : (b - 0.6) / 0.4 ≤ 1 := by
          rw [div_le_one (by norm_num : (0 : ℚ) < 0.4)]
          linarith
        linarith
      have hd1 : 1 - (b - 0.6) / 0.4 ≤ 1 := by
        have : 0 ≤ (b - 0.6) / 0.4 := div_nonneg (by linarith) (by norm_num)
        linarith
      have hsq : (1 - (b - 0.6) / 0.4) ^ 2 ≤ 1 := pow_le_one₀ hd0 hd1
      nlinarith
  · by_cases hb : b < 0.6
    · exact absurd (lt_of_le_of_lt hab hb) ha
    · rw [if_neg ha, if_neg hb]
      push_neg at ha
      have hb0 : (0 : ℚ) ≤ 1 - (b - 0.6) / 0.4 := by
        have : (b - 0.6) / 0.4 ≤ 1 := by
          rw [div_le_one (by norm_num : (0 : ℚ) < 0.4)]
          linarith
        linarith
      have hba : 1 - (b - 0.6) / 0.4 ≤ 1 - (a - 0.6) / 0.4 := by
        have : (a - 0.6) / 0.4 ≤ (b - 0.6) / 0.4 :=
          (div_le_div_right (by norm_num : (0 : ℚ) < 0.4)).mpr (by linarith)
        linarith
      have hsq : (1 - (b - 0.6) / 0.4) ^ 2 ≤ (1 - (a - 0.6) / 0.4) ^ 2 :=
        pow_le_pow_left₀ hb0 hba 2
      nlinarith

/-- A not-yet-expired tick with `done = false` publishes the eased fraction
scaled by the 0.95 target and schedules a further frame. -/
lemma tickResult_false_lt (estMs startTime now : ℚ)
    (h : tickT estMs startTime now < 1) :
    tickResult estMs startTime now false
      = (eased (tickT estMs startTime now) * 0.95, true) := by
  unfold tickResult
  rw [if_pos (show (false = false ∧ tickT estMs startTime now < 1) from
    ⟨rfl, h⟩)]
  norm_num

/-- An expired tick with `done = false` publishes 0.95 and schedules no
further frame. -/
lemma tickResult_false_ge (estMs startTime now : ℚ)
    (h : 1 ≤ tickT estMs startTime now) :
    tickResult estMs startTime now false = (0.95, false) := by
  unfold tickResult
  rw [if_neg (fun hc => absurd hc.2 (not_lt.mpr h)),
    if_pos (show (false = false ∧ 1 ≤ tickT estMs startTime now) from
      ⟨rfl, h⟩)]

/-- A tick with `done = true` publishes 1 and schedules no further frame. -/
lemma tickResult_true (estMs startTime now : ℚ) :
    tickResult estMs startTime now true = (1, false) := by
  unfold tickResult
  rw [if_neg (fun hc => Bool.noConfusion hc.1),
    if_neg (fun hc => Bool.noConfusion hc.1)]

/-- Any incomplete tick publishes at most the 0.95 ceiling. -/
lemma tickFraction_false_le (estMs startTime now : ℚ) :
    tickFraction estMs startTime now false ≤ 0.95 := by
  by_cases h : tickT estMs startTime now < 1
  · simp only [tickFraction]
    rw [tickResult_false_lt _ _ _ h]
    have h95 := eased_le_ceiling (tickT_nonneg estMs startTime now)
      (tickT_le_one estMs startTime now)
    have h0 := eased_nonneg (tickT_nonneg estMs startTime now)
      (tickT_le_one estMs startTime now)
    show eased (tickT estMs startTime now) * 0.95 ≤ 0.95
    nlinarith
  · simp only [tickFraction]
    rw [tickResult_false_ge _ _ _ (not_lt.mp h)]

/-- C2: for a fixed positive estimate and a strictly increasing clock, the
incomplete ticks publish a non-decreasing fraction sequence bounded by
0.95, and a tick publishes 1 only when the completion flag is true. -/
theorem scheduler_monotone (estMs startTime : ℚ) (now : ℕ → ℚ)
    (hpos : 0 < estMs) (hmono : StrictMono now) :
    (∀ i j : ℕ, i ≤ j →
      tickFraction estMs startTime (now i) false
        ≤ tickFraction estMs startTime (now j) false)
    ∧ (∀ i : ℕ, tickFraction estMs startTime (now i) false ≤ 0.95)
    ∧ (∀ (i : ℕ) (done : Bool),
        tickFraction estMs startTime (now i) done = 1 → done = true) := by
  refine ⟨?_, fun i => tickFraction_false_le _ _ _, ?_⟩
  · intro i j hij
    have hT : tickT estMs startTime (now i) ≤ tickT estMs startTime (now j) :=
      tickT_mono estMs startTime hpos (hmono.monotone hij)
    by_cases hj : tickT estMs startTime (now j) < 1
    · have hi : tickT estMs startTime (now i) < 1 := lt_of_le_of_lt hT hj
      simp only [tickFraction]
      rw [tickResult_false_lt _ _ _ hi, tickResult_false_lt _ _ _ hj]
      have hm : eased (tickT estMs startTime (now i))
          ≤ eased (tickT estMs startTime (now j)) :=
        eased_mono (tickT_nonneg estMs startTime (now i)) hT
          (tickT_le_one estMs startTime (now j))
      show eased (tickT estMs startTime (now i)) * 0.95
        ≤ eased (tickT estMs startTime (now j)) * 0.95
      nlinarith
    · simp only [tickFraction]
      rw [tickResult_false_ge _ _ _ (not_lt.mp hj)]
      exact tickFraction_false_le _ _ _
  · intro i done h
    cases done with
    | true => rfl
    | false =>
      exfalso
      have hb := tickFraction_false_le estMs startTime (now i)
      rw [h] at hb
      norm_num at hb

/-- Witness for C2 with estimate 1000 ms and the identity clock. -/
theorem scheduler_monotone_witness :
    tickFraction 1000 0 ((fun i : ℕ => (i : ℚ)) 1) false
      ≤ tickFraction 1000 0 ((fun i : ℕ => (i : ℚ)) 7) false :=
  (scheduler_monotone 1000 0 (fun i : ℕ => (i : ℚ)) (by norm_num)
    Nat.strictMono_cast).1 1 7 (by norm_num)

/-- C7: the first tick observing completed = true publishes fraction 1
regardless of the prior progress and schedules no further tick. -/
theorem scheduler_completion :
    ∀ estMs startTime now : ℚ,
      tickFraction estMs startTime now true = 1
      ∧ tickReschedules estMs startTime now true = false := by
  intro estMs startTime now
  simp only [tickFraction, tickReschedules]
  rw [tickResult_true]
  exact ⟨rfl, rfl⟩

/-- C4 counterexample: at estMs = 1000, startTime = 0, now = 1000 the tick
observes t = 1 with completed = false and publishes 0.95, but it does not
schedule a further tick, refuting the claimed indefinite rescheduling. -/
theorem scheduler_stall_counterexample :
    tickT 1000 0 1000 = 1
    ∧ tickFraction 1000 0 1000 false = 0.95
    ∧ tickReschedules 1000 0 1000 false ≠ true := by
  have ht : (1 : ℚ) ≤ tickT 1000 0 1000 := by norm_num [tickT, jsClamp]
  refine ⟨le_antisymm (tickT_le_one 1000 0 1000) ht, ?_, ?_⟩
  · simp only [tickFraction]
    rw [tickResult_false_ge _ _ _ ht]
  · simp only [tickReschedules]
    rw [tickResult_false_ge _ _ _ ht]
    simp

/-- C4 amended: every tick observing t ≥ 1 with completed = false publishes
fraction 0.95 and schedules no further animation frame; the published value
therefore stays 0.95, no later tick running until the completion signal
re-runs the effect. -/
theorem scheduler_stall_amended (estMs startTime now : ℚ)
    (h : 1 ≤ tickT estMs startTime now) :
    tickFraction estMs startTime now false = 0.95
    ∧ tickReschedules estMs startTime now false = false := by
  simp only [tickFraction, tickReschedules]
  rw [tickResult_false_ge _ _ _ h]
  exact ⟨rfl, rfl⟩

/-- Witness for the amended C4 with the estimate exhausted twice over. -/
theorem scheduler_stall_amended_witness :
    tickFraction 1000 0 2000 false = 0.95 :=
  (scheduler_stall_amended 1000 0 2000 (by norm_num [tickT, jsClamp])).1

/-- C10: an incomplete tick with t < 1 publishes exactly eased(t) * 0.95,
hence at most 0.9025, and an incomplete tick publishes 0.95 only once
t ≥ 1, so the fraction jumps discontinuously from at most 90.25% to 95%. -/
theorem ceiling_gap (estMs startTime now : ℚ) :
    (tickT estMs startTime now < 1 →
      tickFraction estMs startTime now false
          = eased (tickT estMs startTime now) * 0.95
        ∧ tickFraction estMs startTime now false ≤ 0.9025)
    ∧ (tickFraction estMs startTime now false = 0.95 →
        1 ≤ tickT estMs startTime now) := by
  have main : tickT estMs startTime now < 1 →
      tickFraction estMs startTime now false
          = eased (tickT estMs startTime now) * 0.95
        ∧ tickFraction estMs startTime now false ≤ 0.9025 := by
    intro h
    have heq : tickFraction estMs startTime now false
        = eased (tickT estMs startTime now) * 0.95 := by
      simp only [tickFraction]
      rw [tickResult_false_lt _ _ _ h]
    refine ⟨heq, ?_⟩
    rw [heq]
    have h95 := eased_le_ceiling (tickT_nonneg estMs startTime now)
      (tickT_le_one estMs startTime now)
    have h0 := eased_nonneg (tickT_nonneg estMs startTime now)
      (tickT_le_one estMs startTime now)
    nlinarith
  refine ⟨main, ?_⟩
  intro h
  by_contra hlt
  push_neg at hlt
  have hb := (main hlt).2
  rw [h] at hb
  norm_num at hb

/-- Witness for C10 at the start of a run, where the fraction is 0. -/
theorem ceiling_gap_witness :
    tickFraction 1000 0 0 false ≤ 0.9025 :=
  ((ceiling_gap 1000 0 0).1 (by norm_num [tickT, jsClamp])).2

/-- Unfolding of `estimateMsCore`. -/
lemma estimateMsCore_eq (bytes : ℚ) :
    estimateMsCore bytes =
      jsClamp
        ((if bytes / (1024 * 1024) ≤ 1 then
            1 + 3 * ((bytes / (1024 * 1024) : ℚ) : ℝ)
          else if bytes / (1024 * 1024) ≤ 30 then
            5.2 * ((bytes / (1024 * 1024) : ℚ) : ℝ) ^ (1.35 : ℝ)
          else 1.9 * ((bytes / (1024 * 1024) : ℚ) : ℝ) ^ (1.55 : ℝ)) * 1000
          + 1200)
        (if bytes / (1024 * 1024) < 0.3 then 300 else 5000)
        (6 * 60 * 60 * 1000) := rfl

/-- Reduction of `estimateMsFromBytes` on a successful normalization. -/
lemma estimateMsFromBytes_some (raw : Option ℚ) (bytes : ℚ)
    (h : normalizeBytes raw = some bytes) :
    estimateMsFromBytes raw = estimateMsCore bytes := by
  unfold estimateMsFromBytes
  rw [h]

/-- The clamp never exceeds its upper bound. -/
lemma jsClamp_le_hi {α : Type} [LinearOrder α] (n lo hi : α) :
    jsClamp n lo hi ≤ hi := min_le_left _ _

/-- The clamp respects its lower bound when the bounds are ordered. -/
lemma lo_le_jsClamp {α : Type} [LinearOrder α] (n lo hi : α) (h : lo ≤ hi) :
    lo ≤ jsClamp n lo hi := le_min h (le_max_left _ _)

/-- C6: on every rawSize that normalizes to bytes, the estimate is the
piecewise seconds model over mb = bytes/(1024*1024), times 1000 plus the
1200 ms baseline, clamped into [minMs, 6h] with minMs = 300 iff mb < 0.3
and 5000 otherwise; hence the result is at least minMs and at most
21600000 ms. -/
theorem estimate_piecewise_clamped (rawSize : Option ℚ) (bytes : ℚ)
    (h : normalizeBytes rawSize = some bytes) :
    estimateMsFromBytes rawSize =
      jsClamp
        ((if bytes / (1024 * 1024) ≤ 1 then
            1 + 3 * ((bytes / (1024 * 1024) : ℚ) : ℝ)
          else if bytes / (1024 * 1024) ≤ 30 then
            5.2 * ((bytes / (1024 * 1024) : ℚ) : ℝ) ^ (1.35 : ℝ)
          else 1.9 * ((bytes / (1024 * 1024) : ℚ) : ℝ) ^ (1.55 : ℝ)) * 1000
          + 1200)
        (if bytes / (1024 * 1024) < 0.3 then 300 else 5000) 21600000
    ∧ (if bytes / (1024 * 1024) < 0.3 then (300 : ℝ) else 5000)
        ≤ estimateMsFromBytes rawSize
    ∧ estimateMsFromBytes rawSize ≤ 21600000 := by
  have hcap : (6 * 60 * 60 * 1000 : ℝ) = 21600000 := by norm_num
  have hcore : estimateMsFromBytes rawSize =
      jsClamp
        ((if bytes / (1024 * 1024) ≤ 1 then
            1 + 3 * ((bytes / (1024 * 1024) : ℚ) : ℝ)
          else if bytes / (1024 * 1024) ≤ 30 then
            5.2 * ((bytes / (1024 * 1024) : ℚ) : ℝ) ^ (1.35 : ℝ)
          else 1.9 * ((bytes / (1024 * 1024) : ℚ) : ℝ) ^ (1.55 : ℝ)) * 1000
          + 1200)
        (if bytes / (1024 * 1024) < 0.3 then 300 else 5000) 21600000 := by
    rw [estimateMsFromBytes_some rawSize bytes h, estimateMsCore_eq, hcap]
  refine ⟨hcore, ?_, ?_⟩
  · rw [hcore]
    exact lo_le_jsClamp _ _ _ (by split <;> norm_num)
  · rw [hcore]
    exact jsClamp_le_hi _ _ _

/-- Witness for C6 at the concrete valid size 500 bytes. -/
theorem estimate_piecewise_clamped_witness :
    estimateMsFromBytes (some 500) ≤ 21600000 :=
  (estimate_piecewise_clamped (some 500) 500 (by norm_num [normalizeBytes])).2.2

/-- Evaluation rule for `round` at a rational point. -/
lemma round_eval (x : ℝ) (n : ℤ) (h₁ : (n : ℝ) ≤ x + 1 / 2)
    (h₂ : x + 1 / 2 < (n : ℝ) + 1) : round x = n := by
  rw [round_eq]
  exact Int.floor_eq_iff.mpr ⟨h₁, h₂⟩

/-- `formatEta` at 45000 ms. -/
lemma formatEta_at_45000 : formatEta 45000 = "~45s" := by
  have h1 : round ((45000 : ℝ) / 1000) = 45 :=
    round_eval _ 45 (by norm_num) (by norm_num)
  unfold formatEta
  rw [h1]
  decide

/-- `formatEta` at 90000 ms. -/
lemma formatEta_at_90000 : formatEta 90000 = "~2m" := by
  have h1 : round ((90000 : ℝ) / 1000) = 90 :=
    round_eval _ 90 (by norm_num) (by norm_num)
  have hmax : max (1 : ℤ) 90 = 90 := by decide
  have h2 : round (((90 : ℤ) : ℝ) / 60) = 2 :=
    round_eval _ 2 (by push_cast; norm_num) (by push_cast; norm_num)
  unfold formatEta
  rw [h1, hmax, h2]
  decide

/-- `formatEta` at 3600000 ms. -/
lemma formatEta_at_3600000 : formatEta 3600000 = "~1h" := by
  have h1 : round ((3600000 : ℝ) / 1000) = 3600 :=
    round_eval _ 3600 (by norm_num) (by norm_num)
  have hmax : max (1 : ℤ) 3600 = 3600 := by decide
  have h2 : round (((3600 : ℤ) : ℝ) / 60) = 60 :=
    round_eval _ 60 (by push_cast; norm_num) (by push_cast; norm_num)
  have h3 : round (((60 : ℤ) : ℝ) / 60) = 1 :=
    round_eval _ 1 (by push_cast; norm_num) (by push_cast; norm_num)
  unfold formatEta
  rw [h1, hmax, h2, h3]
  decide

/-- `formatEta` at the 6 hour cap. -/
lemma formatEta_at_21600000 : formatEta 21600000 = "~6h" := by
  have h1 : round ((21600000 : ℝ) / 1000) = 21600 :=
    round_eval _ 21600 (by norm_num) (by norm_num)
  have hmax : max (1 : ℤ) 21600 = 21600 := by decide
  have h2 : round (((21600 : ℤ) : ℝ) / 60) = 360 :=
    round_eval _ 360 (by push_cast; norm_num) (by push_cast; norm_num)
  have h3 : round (((360 : ℤ) : ℝ) / 60) = 6 :=
    round_eval _ 6 (by push_cast; norm_num) (by push_cast; norm_num)
  unfold formatEta
  rw [h1, hmax, h2, h3]
  decide

/-- C3 counterexample: the literal rule yields format(3600000) = "~1h", not
"~60m": s = 3600, m = round(3600/60) = 60, and the m < 60 guard fails. -/
theorem formatEta_hour_counterexample : formatEta 3600000 ≠ "~60m" := by
  rw [formatEta_at_3600000]
  decide

/-- C3 amended: formatEta implements the literal rule s = max(1,
round(ms/1000)), "~{s}s" if s < 60, else m = round(s/60), "~{m}m" if
m < 60, else "~{h}h" with h = round(m/60); format(45000) = "~45s" and
format(90000) = "~2m" hold, but format(3600000) = "~1h" (m = 60 falls
through to the hour branch). -/
theorem formatEta_rule :
    (∀ ms : ℝ, formatEta ms = formatEtaRule ms)
    ∧ formatEta 45000 = "~45s"
    ∧ formatEta 90000 = "~2m"
    ∧ formatEta 3600000 = "~1h" :=
  ⟨fun _ => rfl, formatEta_at_45000, formatEta_at_90000, formatEta_at_3600000⟩

/-- Lower bound on the large-branch power term at 3072 MB:
3072 ^ 1.55 ≥ 11368, via (3072 ^ (31/20)) ^ 20 = 3072 ^ 31 ≥ 11368 ^ 20. -/
lemma rpow_3072_lb : (11368 : ℝ) ≤ (3072 : ℝ) ^ (1.55 : ℝ) := by
  have h155 : (1.55 : ℝ) = (31 : ℝ) / 20 := by norm_num
  rw [h155]
  have hnn : (0 : ℝ) ≤ (3072 : ℝ) ^ ((31 : ℝ) / 20) :=
    Real.rpow_nonneg (by norm_num) _
  have key : ((3072 : ℝ) ^ ((31 : ℝ) / 20)) ^ (20 : ℕ)
      = (3072 : ℝ) ^ (31 : ℕ) := by
    rw [← Real.rpow_natCast ((3072 : ℝ) ^ ((31 : ℝ) / 20)) 20,
      ← Real.rpow_mul (by norm_num : (0 : ℝ) ≤ 3072),
      ← Real.rpow_natCast (3072 : ℝ) 31]
    norm_num
  have hle : ((11368 : ℝ)) ^ (20 : ℕ)
      ≤ ((3072 : ℝ) ^ ((31 : ℝ) / 20)) ^ (20 : ℕ) := by
    rw [key]
    norm_num
  exact le_of_pow_le_pow_left (by norm_num) hnn hle

/-- The raw size 3*1024*1024 = 3145728 is a multiple of 1024 inside the KB
heuristic range, so it normalizes to 3221225472 bytes (3 GB). -/
lemma normalize_3MB :
    normalizeBytes (some (3145728 : ℚ)) = some 3221225472 := by
  norm_num [normalizeBytes]

/-- At 3145728 the estimator lands in the large branch at mb = 3072 and the
clamp caps the result at 6 hours. -/
lemma estimate_3MB : estimateMsFromBytes (some (3145728 : ℚ)) = 21600000 := by
  rw [estimateMsFromBytes_some (some (3145728 : ℚ)) 3221225472 normalize_3MB,
    estimateMsCore_eq]
  have hmb : (3221225472 : ℚ) / (1024 * 1024) = 3072 := by norm_num
  rw [hmb, if_neg (by norm_num), if_neg (by norm_num), if_neg (by norm_num)]
  have hcast : ((3072 : ℚ) : ℝ) = 3072 := by norm_cast
  rw [hcast]
  have hx : (11368 : ℝ) ≤ (3072 : ℝ) ^ (1.55 : ℝ) := rpow_3072_lb
  have hms : (6 * 60 * 60 * 1000 : ℝ)
      ≤ 1.9 * (3072 : ℝ) ^ (1.55 : ℝ) * 1000 + 1200 := by nlinarith
  unfold jsClamp
  rw [max_eq_right (by linarith), min_eq_left hms]
  norm_num

/-- C1 counterexample: the pipeline at rawSize = 3*1024*1024 does not
produce the label "~24s". -/
theorem end_to_end_counterexample :
    formatEta (estimateMsFromBytes (some (3 * 1024 * 1024 : ℚ))) ≠ "~24s" := by
  have h3 : (3 * 1024 * 1024 : ℚ) = 3145728 := by norm_num
  rw [h3, estimate_3MB, formatEta_at_21600000]
  decide

/-- C1 amended: rawSize = 3*1024*1024 bytes is an exact multiple of 1024
inside the KB heuristic range, so the normalizer reinterprets it as
kilobytes (3221225472 bytes = 3072 MB); the large-branch estimate exceeds
the cap, giving estimatedMs = 21600000 (6 h), and format yields "~6h". -/
theorem end_to_end_amended :
    normalizeBytes (some (3 * 1024 * 1024 : ℚ)) = some 3221225472
    ∧ estimateMsFromBytes (some (3 * 1024 * 1024 : ℚ)) = 21600000
    ∧ formatEta (estimateMsFromBytes (some (3 * 1024 * 1024 : ℚ)))
        = "~6h" := by
  have h3 : (3 * 1024 * 1024 : ℚ) = 3145728 := by norm_num
  rw [h3]
  exact ⟨normalize_3MB, estimate_3MB,
    by rw [estimate_3MB, formatEta_at_21600000]⟩

/-- A list of length at most one containing an element is that singleton. -/
lemma length_le_one_mem {l : List ℕ} {id : ℕ} (hlen : l.length ≤ 1)
    (hmem : id ∈ l) : l = [id] := by
  cases l with
  | nil => simp at hmem
  | cons a t =>
    cases t with
    | nil =>
      simp at hmem
      rw [hmem]
    | cons b t' => simp at hlen

/-- Under the invariant, the scheduled list is empty or the singleton of the
raf-ref handle. -/
lemma SchedInv.scheduled_cases {s : SchedState} (h : SchedInv s) :
    s.scheduled = [] ∨ ∃ id, s.scheduled = [id] ∧ s.rafRef = some id := by
  obtain ⟨hlen, href, -, -⟩ := h
  by_cases hnil : s.scheduled = []
  · exact Or.inl hnil
  · obtain ⟨a, hmem⟩ := List.exists_mem_of_ne_nil s.scheduled hnil
    exact Or.inr ⟨a, length_le_one_mem hlen hmem, href a hmem⟩

/-- Cancelling does not touch the handle counter. -/
lemma cancelPending_nextId (s : SchedState) :
    (cancelPending s).nextId = s.nextId := by
  unfold cancelPending
  cases s.rafRef <;> rfl

/-- Under the invariant the cleanup leaves no scheduled frame. -/
lemma cancelPending_scheduled {s : SchedState} (h : SchedInv s) :
    (cancelPending s).scheduled = [] := by
  rcases h.scheduled_cases with hnil | ⟨id, hs, href⟩
  · unfold cancelPending
    cases s.rafRef <;> simp [hnil]
  · unfold cancelPending
    rw [href]
    simp [hs]

/-- Under the invariant, an effect re-run produces exactly the reset state:
new start time, fraction 0, and one freshly scheduled frame. -/
lemma restart_eq {s : SchedState} (h : SchedInv s) (estMs : ℚ) (done : Bool)
    (now : ℚ) :
    schedStep s (SchedEvent.restart estMs done now)
      = { startTime := now, estMs := estMs, done := done, fraction := 0,
          rafRef := some s.nextId, scheduled := [s.nextId],
          nextId := s.nextId + 1 } := by
  show effectBody estMs done now (cancelPending s) = _
  unfold effectBody
  rw [cancelPending_scheduled h, cancelPending_nextId]
  rfl

/-- The initial state satisfies the invariant. -/
lemma schedInit_inv : SchedInv schedInit := by
  refine ⟨by simp [schedInit], ?_, ?_, ?_⟩ <;> intro id hid <;>
    simp [schedInit] at hid

/-- Every lifecycle step preserves the invariant. -/
lemma schedStep_inv {s : SchedState} (h : SchedInv s) (e : SchedEvent) :
    SchedInv (schedStep s e) := by
  cases e with
  | restart estMs done now =>
    rw [restart_eq h]
    refine ⟨by simp, ?_, ?_, ?_⟩
    · intro id hid
      simp at hid
      simp [hid]
    · intro id hid
      simp at hid
      simp [hid]
    · intro id hid
      simp at hid
      simp [hid]
  | fire id now =>
    show SchedInv (fireFrame id now s)
    unfold fireFrame
    by_cases hmem : id ∈ s.scheduled
    · rw [if_pos hmem]
      have hsch : s.scheduled = [id] := length_le_one_mem h.1 hmem
      have herase : s.scheduled.erase id = [] := by simp [hsch]
      by_cases hres : tickReschedules s.estMs s.startTime now s.done
      · rw [if_pos hres]
        refine ⟨by simp [herase], ?_, ?_, ?_⟩
        · intro i hi
          simp [herase] at hi
          simp [hi]
        · intro i hi
          simp [herase] at hi
          simp [hi]
        · intro i hi
          simp at hi
          simp [hi]
      · rw [if_neg hres]
        refine ⟨by simp [herase], ?_, ?_, ?_⟩
        · intro i hi
          simp [herase] at hi
        · intro i hi
          simp [herase] at hi
        · intro i hi
          simp at hi
          exact h.2.2.2 i hi
    · rw [if_neg hmem]
      exact h

/-- The invariant holds along every event trace. -/
lemma schedRun_inv (evs : List SchedEvent) : SchedInv (schedRun evs) := by
  suffices hgen : ∀ (l : List SchedEvent) (s : SchedState), SchedInv s →
      SchedInv (l.foldl schedStep s) from hgen evs schedInit schedInit_inv
  intro l
  induction l with
  | nil => exact fun s hs => hs
  | cons e t ih => exact fun s hs => ih _ (schedStep_inv hs e)

/-- C9: an effect re-run (new estimatedMs, completion flip, or remount)
resets the published fraction to 0 and the start time to the call time,
cancels the previously pending frame handle first (the old handle is no
longer scheduled afterwards), every reachable lifecycle state has at most
one live frame handle, and firing the superseded stale handle after the
re-run leaves the new run state unchanged. -/
theorem scheduler_reset (s : SchedState) (estMs : ℚ) (done : Bool) (now : ℚ)
    (hInv : SchedInv s) :
    (schedStep s (SchedEvent.restart estMs done now)).fraction = 0
    ∧ (schedStep s (SchedEvent.restart estMs done now)).startTime = now
    ∧ (∀ id : ℕ, s.rafRef = some id →
        id ∉ (schedStep s (SchedEvent.restart estMs done now)).scheduled)
    ∧ (∀ evs : List SchedEvent, (schedRun evs).scheduled.length ≤ 1)
    ∧ (∀ (id : ℕ) (m : ℚ), s.rafRef = some id →
        schedStep (schedStep s (SchedEvent.restart estMs done now))
            (SchedEvent.fire id m)
          = schedStep s (SchedEvent.restart estMs done now)) := by
  have hre := restart_eq hInv estMs done now
  refine ⟨by rw [hre], by rw [hre], ?_, fun evs => (schedRun_inv evs).1, ?_⟩
  · intro id hid
    have hfr : id < s.nextId := hInv.2.2.2 id hid
    rw [hre]
    simp
    omega
  · intro id m hid
    have hfr : id < s.nextId := hInv.2.2.2 id hid
    rw [hre]
    show fireFrame id m _ = _
    unfold fireFrame
    rw [if_neg (by simp; omega)]

/-- Witness for C9: the first effect run from the mounted component. -/
theorem scheduler_reset_witness :
    (schedStep schedInit (SchedEvent.restart 1000 false 5)).fraction = 0 :=
  (scheduler_reset schedInit 1000 false 5 schedInit_inv).1

